import Mathlib

/-!
Verification development for the `sprout` git work-tree manager
(`src/main.rs`). The stateful operations are embedded as pure functions:
external effects (git invocations, filesystem canonicalization, clock) are
passed in explicitly as oracle values, and persistence is modelled by the
`*_persisted` wrappers, which return the on-disk metadata after the
operation (the store is rewritten only when the source calls
`save_metadata`).
-/

namespace Sprout

/-- The `Config` struct of `main.rs` (fields `branch_prefix`,
`copy_paths`, both optional; the derived `Default` is `None`/`None`). -/
structure Config where
  branch_prefix : Option String
  copy_paths : Option (List String)
  deriving DecidableEq, Repr

/-- The `WorktreeEntry` struct of `main.rs`. -/
structure WorktreeEntry where
  name : String
  path : String
  source_repo : String
  branch : String
  created_at : Int
  deriving DecidableEq, Repr

/-- The `Metadata` struct of `main.rs`: the ordered list of tracked
work-trees. -/
structure Metadata where
  worktrees : List WorktreeEntry
  deriving DecidableEq, Repr

/-- The derived `Default` for `Config`: both fields absent. -/
def defaultConfig : Config := ⟨none, none⟩

/-- The derived `Default` for `Metadata`: empty list. -/
def defaultMetadata : Metadata := ⟨[]⟩

/-- The names of all tracked entries, in store order. -/
def worktree_names (m : Metadata) : List String :=
  m.worktrees.map (fun e => e.name)

/-- Branch derivation of `create_worktree` (main.rs lines 86-91):
`config.branch_prefix.unwrap_or("sprout/")`, then the branch is the bare
name when the prefix is empty and `prefix + name` otherwise. -/
def derive_branch (config : Config) (name : String) : String :=
  let pre := ( Config.branch_prefix config).getD "sprout/"
  if pre = "" then name else pre ++ name

/-- Oracle inputs consumed by one `create_worktree` run: whether the
destination path already exists, whether `git worktree add` succeeds,
whether the optional seed copy succeeds, the result of canonicalizing the
new work-tree path (`None` = canonicalization failure), the canonicalized
repository root, and the clock value. -/
structure CreateEnv where
  path_exists : Bool
  git_add_ok : Bool
  copy_ok : Bool
  canon_result : Option String
  repo_root : String
  now : Int
  deriving DecidableEq, Repr

inductive CreateErr where
  | pathExists
  | nameExists
  | gitError
  | copyError
  | canonError
  deriving DecidableEq, Repr

/-- The spec's `AlreadyExistsError` covers both collision bails of
`create_worktree`: the destination-path check and the duplicate-name
check. -/
def CreateErr.isAlreadyExists : CreateErr → Bool
  | CreateErr.pathExists => true
  | CreateErr.nameExists => true
  | _ => false

/-- `create_worktree` (main.rs lines 71-120): bail if the destination path
exists; bail if the name is already tracked; run `git worktree add` with
the derived branch; optionally seed-copy; canonicalize the new path;
append the entry and save. An error before the final save leaves the
persisted store untouched. -/
def create_worktree (env : CreateEnv) (config : Config) (metadata : Metadata)
    (name : String) : Except CreateErr Metadata :=
  if env.path_exists then Except.error CreateErr.pathExists
  else if metadata.worktrees.any (fun e => e.name == name) then
    Except.error CreateErr.nameExists
  else if !env.git_add_ok then Except.error CreateErr.gitError
  else if ( Config.copy_paths config).isSome && !env.copy_ok then
    Except.error CreateErr.copyError
  else
    match env.canon_result with
    | none => Except.error CreateErr.canonError
    | some p =>
        Except.ok ⟨metadata.worktrees ++
          [⟨name, p, env.repo_root, derive_branch config name, env.now⟩]⟩

/-- The metadata store on disk after a `create_worktree` run:
`save_metadata` runs only on the success path, so on error the persisted
store is the one that was loaded. -/
def create_persisted (env : CreateEnv) (config : Config) (metadata : Metadata)
    (name : String) : Metadata :=
  match create_worktree env config metadata name with
  | Except.ok m => m
  | Except.error _ => metadata

/-- Runs a sequence of `create` invocations (each with its own oracle
environment, loaded config and requested name) against the persisted
store, threading the on-disk state through. -/
def run_creates (metadata : Metadata) :
    List (CreateEnv × Config × String) → Metadata
  | [] => metadata
  | c :: rest => run_creates (create_persisted c.fst c.snd.fst metadata c.snd.snd) rest

inductive DeleteErr where
  | unknownWorktree
  | gitError
  deriving DecidableEq, Repr

/-- `delete_worktree` (main.rs lines 185-201): find the entry by name
(error `unknown worktree` if absent), remove it from the in-memory list,
run `git worktree remove` (the `git_remove_ok` oracle), and only on
success save the shrunk metadata. -/
def delete_worktree (git_remove_ok : Bool) (metadata : Metadata)
    (name : String) : Except DeleteErr Metadata :=
  match metadata.worktrees.findIdx? (fun e => e.name == name) with
  | none => Except.error DeleteErr.unknownWorktree
  | some i =>
      if git_remove_ok then Except.ok ⟨metadata.worktrees.eraseIdx i⟩
      else Except.error DeleteErr.gitError

/-- The metadata store on disk after a `delete_worktree` run: the source
calls `save_metadata` only after `run_git` succeeded. -/
def delete_persisted (git_remove_ok : Bool) (metadata : Metadata)
    (name : String) : Metadata :=
  match delete_worktree git_remove_ok metadata name with
  | Except.ok m => m
  | Except.error _ => metadata

inductive CdErr where
  | unknownWorktree
  | pathError
  deriving DecidableEq, Repr

/-- `cd_worktree` (main.rs lines 122-132): look the entry up by name
(`unknown worktree` on a miss) and print its path canonicalized by
`print_cd_path`; the `canon` oracle is `fs::canonicalize` (`None` =
failure). -/
def cd_worktree (canon : String → Option String) (metadata : Metadata)
    (name : String) : Except CdErr String :=
  match metadata.worktrees.find? (fun e => e.name == name) with
  | none => Except.error CdErr.unknownWorktree
  | some e =>
      match canon e.path with
      | none => Except.error CdErr.pathError
      | some p => Except.ok p

/-- `cd_base` (main.rs lines 134-152): `repo_root` is the already
canonicalized repository root; find the first entry whose stored path
canonicalizes (falling back to the stored string) to the root; if found,
print that entry's `source_repo` (canonicalized), otherwise print the
canonicalized root itself. -/
def cd_base (canon : String → Option String) (repo_root : String)
    (metadata : Metadata) : Except CdErr String :=
  match metadata.worktrees.find?
      (fun e => (( canon e.path).getD e.path) == repo_root) with
  | some e =>
      match canon e.source_repo with
      | none => Except.error CdErr.pathError
      | some p => Except.ok p
  | none =>
      match canon repo_root with
      | none => Except.error CdErr.pathError
      | some p => Except.ok p

/-- Rust `str::trim`, modelled over the character list: drop whitespace
from both ends. -/
def rust_trim (s : String) : String :=
  ⟨((s.data.dropWhile Char.isWhitespace).reverse.dropWhile
      Char.isWhitespace).reverse⟩

/-- Digit-run parse used by `i64` parsing: at least one character, all
digits. -/
def digitsToNat (cs : List Char) : Option Nat :=
  if cs.isEmpty then none
  else if cs.all Char.isDigit then
    some (cs.foldl (fun n c => n * 10 + (c.toNat - Char.toNat '0')) 0)
  else none

/-- Rust `str::parse::<i64>`: an optional sign followed by at least one
digit (the `i64` overflow bound is not modelled). -/
def parse_i64 (s : String) : Option Int :=
  match s.data with
  | '-' :: rest => (digitsToNat rest).map (fun n => -(n : Int))
  | '+' :: rest => (digitsToNat rest).map (fun n => (n : Int))
  | cs => (digitsToNat cs).map (fun n => (n : Int))

/-- `git_last_commit_ts` (main.rs lines 229-242) plus the caller's
`unwrap_or(0)`: `git_log` models the `git log -1 --format=%ct` stdout
(`None` = spawn failure or non-zero exit, both of which end up as 0); a
captured line is trimmed and parsed, defaulting to 0. -/
def git_last_commit_ts (git_log : String → Option String)
    (worktree_path : String) : Int :=
  match git_log worktree_path with
  | none => 0
  | some text => (parse_i64 (rust_trim text)).getD 0

/-- The row list built by `list_worktrees` (main.rs lines 154-183): pair
every entry with its best-effort last-commit timestamp, then stable-sort
with comparator `b.0.cmp(&a.0)`, i.e. descending by timestamp. -/
def list_rows (git_log : String → Option String) (metadata : Metadata) :
    List (Int × WorktreeEntry) :=
  let rows := metadata.worktrees.map
    (fun e => (git_last_commit_ts git_log e.path, e))
  rows.mergeSort (fun a b => decide (b.fst ≤ a.fst))

inductive CfgErr where
  | unknownKey
  deriving DecidableEq, Repr

/-- `config_get` (main.rs lines 377-392): the line printed for a key, or
`unknown config key`. An absent `branch_prefix` prints the empty string
(`unwrap_or_default`), an absent `copy_paths` prints the comma-join of
the empty list. -/
def config_get (config : Config) (key : String) : Except CfgErr String :=
  if key = "branch_prefix" then
    Except.ok (( Config.branch_prefix config).getD "")
  else if key = "copy_paths" then
    Except.ok (String.intercalate "," (( Config.copy_paths config).getD []))
  else Except.error CfgErr.unknownKey

/-- The `copy_paths` parsing of `config_set` (main.rs lines 400-406):
split on commas, trim each piece, drop empties. -/
def split_copy_paths (value : String) : List String :=
  ((value.splitOn ",").map (fun s => rust_trim s)).filter (fun s => s != "")

/-- `config_set` (main.rs lines 394-417): `branch_prefix` stores the raw
value; `copy_paths` stores the parsed pieces, or clears the field to
`None` when no non-blank piece remains; unknown keys bail. The updated
config is then saved. -/
def config_set (config : Config) (key value : String) : Except CfgErr Config :=
  if key = "branch_prefix" then
    Except.ok { config with branch_prefix := some value }
  else if key = "copy_paths" then
    let entries := split_copy_paths value
    if entries.isEmpty then Except.ok { config with copy_paths := none }
    else Except.ok { config with copy_paths := some entries }
  else Except.error CfgErr.unknownKey

/-! ### Document-level model of the persisted encodings

`save_metadata`/`load_metadata` delegate to `serde_json`, and
`save_config`/`load_config` to `toml`, over the derived
`Serialize`/`Deserialize` of the structs above. The encodings are
modelled at the document (AST) level: an object with one field per struct
field in declaration order on save; on load a field lookup that accepts
any field order, tolerates unknown fields, and fails on a missing or
ill-typed field. -/

inductive Json where
  | str (s : String)
  | num (n : Int)
  | arr (items : List Json)
  | obj (fields : List (String × Json))
  deriving Repr

def jsonField (fields : List (String × Json)) (key : String) : Option Json :=
  (fields.find? (fun f => f.fst == key)).map (fun f => f.snd)

def asStr : Option Json → Option String
  | some (Json.str s) => some s
  | _ => none

def asNum : Option Json → Option Int
  | some (Json.num n) => some n
  | _ => none

/-- The serde JSON encoding of one `WorktreeEntry`. -/
def entryToJson (e : WorktreeEntry) : Json :=
  Json.obj [("name", Json.str e.name), ("path", Json.str e.path),
    ("source_repo", Json.str e.source_repo), ("branch", Json.str e.branch),
    ("created_at", Json.num e.created_at)]

/-- The serde JSON decoding of one `WorktreeEntry`. -/
def entryFromJson : Json → Option WorktreeEntry
  | Json.obj fields =>
      match asStr (jsonField fields "name"), asStr (jsonField fields "path"),
        asStr (jsonField fields "source_repo"),
        asStr (jsonField fields "branch"),
        asNum (jsonField fields "created_at") with
      | some n, some p, some sr, some b, some ca => some ⟨n, p, sr, b, ca⟩
      | _, _, _, _, _ => none
  | _ => none

def entriesFromJson : List Json → Option (List WorktreeEntry)
  | [] => some []
  | j :: rest =>
      match entryFromJson j, entriesFromJson rest with
      | some e, some es => some (e :: es)
      | _, _ => none

/-- The document written by `save_metadata` (main.rs lines 271-278). -/
def metadataToJson (m : Metadata) : Json :=
  Json.obj [("worktrees", Json.arr (m.worktrees.map entryToJson))]

/-- The parse performed by `load_metadata` on a present file (main.rs
lines 262-269); `none` models the fatal `MetadataError`. -/
def metadataFromJson : Json → Option Metadata
  | Json.obj fields =>
      match jsonField fields "worktrees" with
      | some (Json.arr items) =>
          match entriesFromJson items with
          | some es => some ⟨es⟩
          | none => none
      | _ => none
  | _ => none

/-- `load_metadata` including the absent-file default (main.rs lines
262-269): `file = none` models a missing `metadata.json`. -/
def load_metadata (file : Option Json) : Option Metadata :=
  match file with
  | none => some defaultMetadata
  | some j => metadataFromJson j

/-- TOML values occurring in `config.toml`: strings and string arrays. -/
inductive TomlValue where
  | str (s : String)
  | strArr (items : List String)
  deriving DecidableEq, Repr

def tomlField (fields : List (String × TomlValue)) (key : String) :
    Option TomlValue :=
  (fields.find? (fun f => f.fst == key)).map (fun f => f.snd)

/-- The document written by `save_config` (main.rs lines 253-260): the
toml serializer omits `None` fields. -/
def configToToml (config : Config) : List (String × TomlValue) :=
  (match Config.branch_prefix config with
   | some s => [("branch_prefix", TomlValue.str s)]
   | none => []) ++
  (match Config.copy_paths config with
   | some l => [("copy_paths", TomlValue.strArr l)]
   | none => [])

/-- The parse performed by `load_config` on a present file (main.rs lines
244-251); `none` models the fatal `ConfigError`. -/
def configFromToml (fields : List (String × TomlValue)) : Option Config :=
  let bp : Option (Option String) :=
    match tomlField fields "branch_prefix" with
    | some (TomlValue.str s) => some (some s)
    | none => some none
    | some _ => none
  let cp : Option (Option (List String)) :=
    match tomlField fields "copy_paths" with
    | some (TomlValue.strArr l) => some (some l)
    | none => some none
    | some _ => none
  match bp, cp with
  | some b, some c => some ⟨b, c⟩
  | _, _ => none

/-- `load_config` including the absent-file default (main.rs lines
244-251): `file = none` models a missing `config.toml` and yields
`Config::default()`. -/
def load_config (file : Option (List (String × TomlValue))) : Option Config :=
  match file with
  | none => some defaultConfig
  | some fields => configFromToml fields

/-! ### Filesystem-tree model of the seed copier

`copy_config_paths`/`copy_recursively` (main.rs lines 419-474) walk real
directories. They are modelled over a finite tree of named nodes; paths
are the component lists produced by `Path::join`, and all lookups go
through real directories (a symlink at the destination is treated as a
non-directory obstruction, and a symlink source counts as existing, the
valid-symlink case of `Path::exists`). -/

inductive Fs where
  | file (data : String)
  | symlink (target : String)
  | dir (entries : List (String × Fs))
  deriving Repr

inductive CopyErr where
  | ioError
  deriving DecidableEq, Repr

def lookupChild (entries : List (String × Fs)) (n : String) : Option Fs :=
  (entries.find? (fun e => e.fst == n)).map (fun e => e.snd)

def updateChild (entries : List (String × Fs)) (n : String) (v : Fs) :
    List (String × Fs) :=
  match entries with
  | [] => [(n, v)]
  | (m, w) :: rest =>
      if m == n then (n, v) :: rest else (m, w) :: updateChild rest n v

/-- Resolve a component path inside a tree, through directories only. -/
def lookupFs (fs : Fs) : List String → Option Fs
  | [] => some fs
  | n :: rest =>
      match fs with
      | Fs.dir entries =>
          match lookupChild entries n with
          | some c => lookupFs c rest
          | none => none
      | _ => none

mutual

/-- `copy_recursively` (main.rs lines 441-474) as a function from the
source node and the current destination node (`none` = nothing at the
destination path) to the new destination node: a symlink source is
skipped (destination untouched); a directory source has the destination
directory created and its children copied one by one; a file source is
skipped when the destination exists, copied otherwise. `create_dir_all`
on a non-directory obstruction is the structural failure. -/
def copyRecursively : Fs → Option Fs → Except CopyErr (Option Fs)
  | Fs.symlink _, dst => Except.ok dst
  | Fs.file data, dst =>
      match dst with
      | some d => Except.ok (some d)
      | none => Except.ok (some (Fs.file data))
  | Fs.dir children, dst =>
      match dst with
      | some (Fs.file _) => Except.error CopyErr.ioError
      | some (Fs.symlink _) => Except.error CopyErr.ioError
      | some (Fs.dir des) =>
          match copyChildren children des with
          | Except.ok des2 => Except.ok (some (Fs.dir des2))
          | Except.error e => Except.error e
      | none =>
          match copyChildren children [] with
          | Except.ok des2 => Except.ok (some (Fs.dir des2))
          | Except.error e => Except.error e

/-- The `read_dir` loop of the directory case, threading the destination
directory's entry list. -/
def copyChildren : List (String × Fs) → List (String × Fs) →
    Except CopyErr (List (String × Fs))
  | [], des => Except.ok des
  | (n, c) :: rest, des =>
      match copyRecursively c (lookupChild des n) with
      | Except.error e => Except.error e
      | Except.ok none => copyChildren rest des
      | Except.ok (some v) => copyChildren rest (updateChild des n v)

end

/-- Write a node at a component path, creating intermediate directories
(`create_dir_all`); a non-directory met on the way is a structural
failure. -/
def insertAtPath : Fs → List String → Fs → Except CopyErr Fs
  | _, [], v => Except.ok v
  | Fs.dir entries, n :: rest, v =>
      match insertAtPath ((lookupChild entries n).getD (Fs.dir [])) rest v with
      | Except.ok c2 => Except.ok (Fs.dir (updateChild entries n c2))
      | Except.error e => Except.error e
  | Fs.file _, _ :: _, _ => Except.error CopyErr.ioError
  | Fs.symlink _, _ :: _, _ => Except.error CopyErr.ioError

/-- One `copy_paths` entry as parsed by `Path::new`: an absolute flag and
the relative components. -/
structure CopyPathEntry where
  absolute : Bool
  components : List String
  deriving DecidableEq, Repr

/-- Run `copy_recursively` for one entry against the work-tree root:
look up the current destination node, copy, and write the result back
(nothing is written when the copy produced nothing). -/
def copy_at (wt : Fs) (rel : List String) (src : Fs) : Except CopyErr Fs :=
  match copyRecursively src (lookupFs wt rel) with
  | Except.error e => Except.error e
  | Except.ok none => Except.ok wt
  | Except.ok (some v) => insertAtPath wt rel v

/-- `copy_config_paths` (main.rs lines 419-439): absolute entries are
skipped with a warning, entries whose source does not exist are skipped
with a warning, otherwise `copy_recursively` runs and its structural
failure aborts the whole operation. -/
def copy_config_paths (repo : Fs) (wt : Fs) :
    List CopyPathEntry → Except CopyErr Fs
  | [] => Except.ok wt
  | p :: rest =>
      if p.absolute then copy_config_paths repo wt rest
      else
        match lookupFs repo p.components with
        | none => copy_config_paths repo wt rest
        | some src =>
            match copy_at wt p.components src with
            | Except.ok wt2 => copy_config_paths repo wt2 rest
            | Except.error e => Except.error e

/-- Example entries for the list-ordering property: last commits 100,
300 and unknown. -/
def exampleEntry1 : WorktreeEntry := ⟨"a", "/p1", "/r", "sprout/a", 1⟩

def exampleEntry2 : WorktreeEntry := ⟨"b", "/p2", "/r", "sprout/b", 2⟩

def exampleEntry3 : WorktreeEntry := ⟨"c", "/p3", "/r", "sprout/c", 3⟩

def exampleMetadata : Metadata := ⟨[exampleEntry1, exampleEntry2, exampleEntry3]⟩

/-- Example git-log oracle: `/p1` has last commit 100, `/p2` has 300,
`/p3` fails (unknown). -/
def exampleGitLog : String → Option String := fun p =>
  if p = "/p1" then some "100" else if p = "/p2" then some "300" else none

/-! ### Theorems -/

/-- C3: with `branch_prefix = "sprout/"` the derived branch is `"sprout/"`
followed by the name, with an empty `branch_prefix` it is the bare name,
and an absent `branch_prefix` defaults to `"sprout/"`. -/
theorem branch_derivation (name : String) (cp : Option (List String)) :
    derive_branch ⟨some "sprout/", cp⟩ name = "sprout/" ++ name ∧
    derive_branch ⟨some "", cp⟩ name = name ∧
    derive_branch ⟨none, cp⟩ name = "sprout/" ++ name := by
  refine ⟨?_, ?_, ?_⟩ <;> simp [derive_branch]

/-- C8: `config set copy_paths` splits the value on commas; when no
non-blank piece remains the field is cleared to the absent state,
otherwise the pieces are stored; `config get copy_paths` prints the
stored list comma-joined. -/
theorem copy_paths_set_get (config : Config) (value : String)
    (l : List String) :
    config_set config "copy_paths" value =
      Except.ok { config with copy_paths :=
        (if split_copy_paths value = [] then none
         else some (split_copy_paths value)) } ∧
    config_get { config with copy_paths := some l } "copy_paths" =
      Except.ok (String.intercalate "," l) := by
  constructor
  · by_cases he : split_copy_paths value = []
    · simp [config_set, he]
    · simp [config_set, he]
  · simp [config_get]

/-- One entry survives the JSON encode/decode round trip. -/
theorem entry_roundtrip (e : WorktreeEntry) :
    entryFromJson (entryToJson e) = some e := rfl

theorem entries_roundtrip (es : List WorktreeEntry) :
    entriesFromJson (es.map entryToJson) = some es := by
  induction es with
  | nil => rfl
  | cons e rest ih => simp [entriesFromJson, entry_roundtrip, ih]

theorem metadata_roundtrip (m : Metadata) :
    load_metadata (some (metadataToJson m)) = some m := by
  cases m with
  | mk ws =>
      simp [load_metadata, metadataToJson, metadataFromJson, jsonField,
        entries_roundtrip]

theorem config_roundtrip (config : Config) :
    load_config (some (configToToml config)) = some config := by
  cases config with
  | mk bp cp =>
      cases bp <;> cases cp <;>
        simp [load_config, configToToml, configFromToml, tomlField]

/-- C9: saving a `Config` or a `Metadata` document and loading it back is
the identity. -/
theorem save_load_roundtrip :
    (∀ config : Config, load_config (some (configToToml config)) = some config) ∧
    (∀ m : Metadata, load_metadata (some (metadataToJson m)) = some m) :=
  ⟨config_roundtrip, metadata_roundtrip⟩

/-- C10: with the config file absent (yielding the default config) or
`branch_prefix` unset, `config get branch_prefix` prints the empty
string, while `create` derives branches with the effective default
`"sprout/"`: the reported value and the applied one differ (the branch is
not the bare name the reported empty value would produce). -/
theorem config_get_branch_default_mismatch (config : Config) (name : String)
    (h : Config.branch_prefix config = none) :
    load_config none = some defaultConfig ∧
    Config.branch_prefix defaultConfig = none ∧
    config_get config "branch_prefix" = Except.ok "" ∧
    derive_branch config name = "sprout/" ++ name ∧
    derive_branch config name ≠ name := by
  have h4 : derive_branch config name = "sprout/" ++ name := by
    simp [derive_branch, h]
  refine ⟨rfl, rfl, ?_, h4, ?_⟩
  · simp [config_get, h]
  · rw [h4]
    intro heq
    have hlen := congrArg String.length heq
    rw [String.length_append] at hlen
    have hs : ("sprout/" : String).length = 7 := rfl
    omega

/-- A tracked name yields a successful `findIdx?` lookup. -/
theorem findIdx_some_of_mem (metadata : Metadata) (name : String)
    (h : name ∈ worktree_names metadata) :
    metadata.worktrees.findIdx? (fun e => e.name == name) =
      some (metadata.worktrees.findIdx (fun e => e.name == name)) := by
  apply List.findIdx?_eq_some_of_exists
  simp only [worktree_names, List.mem_map] at h
  obtain ⟨e, he, hn⟩ := h
  exact ⟨e, he, by simp [hn]⟩

/-- C1: when the external git work-tree removal fails, `delete` aborts
with a git error before `save_metadata` runs, so the persisted store is
unchanged and the entry named `name` is still present in it. -/
theorem delete_git_failure_preserves_entry (metadata : Metadata)
    (name : String) (h : name ∈ worktree_names metadata) :
    delete_worktree false metadata name = Except.error DeleteErr.gitError ∧
    delete_persisted false metadata name = metadata ∧
    name ∈ worktree_names (delete_persisted false metadata name) := by
  have hfind := findIdx_some_of_mem metadata name h
  have h1 : delete_worktree false metadata name =
      Except.error DeleteErr.gitError := by
    simp [delete_worktree, hfind]
  have h2 : delete_persisted false metadata name = metadata := by
    simp [delete_persisted, h1]
  exact ⟨h1, h2, by rw [h2]; exact h⟩

/-- Witness for C1 on a one-entry store. -/
theorem delete_git_failure_witness :
    delete_worktree false ⟨[⟨"a", "/p", "/r", "sprout/a", 5⟩]⟩ "a" =
      Except.error DeleteErr.gitError ∧
    delete_persisted false ⟨[⟨"a", "/p", "/r", "sprout/a", 5⟩]⟩ "a" =
      ⟨[⟨"a", "/p", "/r", "sprout/a", 5⟩]⟩ := by
  have h := delete_git_failure_preserves_entry
    ⟨[⟨"a", "/p", "/r", "sprout/a", 5⟩]⟩ "a" (by decide)
  exact ⟨h.1, h.2.1⟩

/-- A duplicate name makes the `any` collision check fire. -/
theorem any_name_of_mem (metadata : Metadata) (name : String)
    (h : name ∈ worktree_names metadata) :
    metadata.worktrees.any (fun e => e.name == name) = true := by
  rw [List.any_eq_true]
  simp only [worktree_names, List.mem_map] at h
  obtain ⟨e, he, hn⟩ := h
  exact ⟨e, he, by simp [hn]⟩

/-- One persisted create step preserves pairwise-distinct names. -/
theorem create_persisted_nodup (env : CreateEnv) (config : Config)
    (metadata : Metadata) (name : String)
    (hnd : (worktree_names metadata).Nodup) :
    (worktree_names (create_persisted env config metadata name)).Nodup := by
  cases hc : create_worktree env config metadata name with
  | error err => simp [create_persisted, hc, hnd]
  | ok m2 =>
      have hres : worktree_names m2 = worktree_names metadata ++ [name] ∧
          name ∉ worktree_names metadata := by
        unfold create_worktree at hc
        by_cases hp : env.path_exists
        · simp [hp] at hc
        · by_cases ha : metadata.worktrees.any (fun e => e.name == name)
          · simp [hp, ha] at hc
          · have hnm : name ∉ worktree_names metadata := by
              intro hmem
              exact ha (any_name_of_mem metadata name hmem)
            by_cases hg : env.git_add_ok
            · by_cases hcp : ( Config.copy_paths config).isSome && !env.copy_ok
              · simp [hp, ha, hg, hcp] at hc
              · cases hcr : env.canon_result with
                | none => simp [hp, ha, hg, hcp, hcr] at hc
                | some pth =>
                    simp only [hp, ha, hg, hcp, hcr, Bool.false_eq_true,
                      if_false, Bool.not_true, if_true, Except.ok.injEq,
                      if_neg, ite_false, ite_true] at hc
                    refine ⟨?_, hnm⟩
                    rw [← hc]
                    simp [worktree_names]
            · simp [hp, ha, hg] at hc
      have hper : create_persisted env config metadata name = m2 := by
        simp [create_persisted, hc]
      rw [hper, hres.1, List.nodup_append]
      refine ⟨hnd, List.nodup_singleton name, ?_⟩
      intro x hx hx2
      rw [List.mem_singleton] at hx2
      subst hx2
      exact hres.2 hx

/-- Any sequence of persisted creates preserves pairwise-distinct names. -/
theorem run_creates_nodup (calls : List (CreateEnv × Config × String)) :
    ∀ m0 : Metadata, (worktree_names m0).Nodup →
      (worktree_names (run_creates m0 calls)).Nodup := by
  induction calls with
  | nil => intro m0 h; exact h
  | cons c rest ih =>
      intro m0 h
      exact ih _ (create_persisted_nodup c.fst c.snd.fst m0 c.snd.snd h)

/-- C2: a create whose name is already tracked fails with an
already-exists error (the path- or name-collision bail) and leaves the
persisted store unchanged; consequently any sequence of creates keeps
the store's names pairwise distinct. -/
theorem create_duplicate_name_and_uniqueness (env : CreateEnv)
    (config : Config) (metadata : Metadata) (name : String)
    (m0 : Metadata) (calls : List (CreateEnv × Config × String))
    (hdup : name ∈ worktree_names metadata)
    (hnd : (worktree_names m0).Nodup) :
    (∃ err, create_worktree env config metadata name = Except.error err ∧
      CreateErr.isAlreadyExists err = true) ∧
    create_persisted env config metadata name = metadata ∧
    (worktree_names (run_creates m0 calls)).Nodup := by
  have hany := any_name_of_mem metadata name hdup
  have h1 : ∃ err, create_worktree env config metadata name =
      Except.error err ∧ CreateErr.isAlreadyExists err = true := by
    by_cases hp : env.path_exists
    · exact ⟨CreateErr.pathExists, by simp [create_worktree, hp], rfl⟩
    · exact ⟨CreateErr.nameExists, by simp [create_worktree, hp, hany], rfl⟩
  refine ⟨h1, ?_, run_creates_nodup calls m0 hnd⟩
  obtain ⟨err, he, _⟩ := h1
  simp [create_persisted, he]

/-- Witness for C2: duplicate-name create on a one-entry store, and a
fresh create sequence from the empty store. -/
theorem create_duplicate_name_witness :
    create_persisted ⟨false, true, true, some "/q", "/r", 7⟩ defaultConfig
        ⟨[⟨"a", "/p", "/r", "sprout/a", 5⟩]⟩ "a" =
      ⟨[⟨"a", "/p", "/r", "sprout/a", 5⟩]⟩ ∧
    (worktree_names (run_creates defaultMetadata
      [(⟨false, true, true, some "/q", "/r", 7⟩, defaultConfig, "a"),
       (⟨false, true, true, some "/q2", "/r", 8⟩, defaultConfig, "a")])).Nodup := by
  have h := create_duplicate_name_and_uniqueness
    ⟨false, true, true, some "/q", "/r", 7⟩ defaultConfig
    ⟨[⟨"a", "/p", "/r", "sprout/a", 5⟩]⟩ "a" defaultMetadata
    [(⟨false, true, true, some "/q", "/r", 7⟩, defaultConfig, "a"),
     (⟨false, true, true, some "/q2", "/r", 8⟩, defaultConfig, "a")]
    (by decide) (by decide)
  exact ⟨h.2.1, h.2.2⟩

/-- Erasing at the index found by `findIdx?` is erasing the first match. -/
theorem eraseIdx_of_findIdx {α : Type} (p : α → Bool) :
    ∀ (l : List α) (i : Nat), l.findIdx? p = some i →
      l.eraseIdx i = l.eraseP p := by
  intro l
  induction l with
  | nil => intro i h; simp at h
  | cons a rest ih =>
      intro i h
      rw [List.findIdx?_cons] at h
      by_cases hp : p a
      · rw [if_pos hp] at h
        cases h
        simp [List.eraseP_cons_of_pos (p := p) hp]
      · rw [if_neg hp, List.findIdx?_succ] at h
        cases hj : rest.findIdx? p with
        | none => rw [hj] at h; simp at h
        | some j =>
            rw [hj] at h
            simp only [Option.map_some', Option.some.injEq] at h
            rw [← h, List.eraseIdx_cons_succ,
              List.eraseP_cons_of_neg (p := p) hp, ih j hj]

/-- With pairwise-distinct names, erasing the first entry matching a name
removes every occurrence of that name. -/
theorem name_not_mem_eraseP (name : String) :
    ∀ ws : List WorktreeEntry, ((ws.map (fun e => e.name)).Nodup) →
      name ∉ (ws.eraseP (fun e => e.name == name)).map (fun e => e.name) := by
  intro ws
  induction ws with
  | nil => simp
  | cons a rest ih =>
      intro hnd
      rw [List.map_cons, List.nodup_cons] at hnd
      by_cases hp : (a.name == name) = true
      · rw [List.eraseP_cons_of_pos
          (p := fun (e : WorktreeEntry) => e.name == name) hp]
        have han : a.name = name := by simpa using hp
        rw [← han]
        exact hnd.1
      · rw [List.eraseP_cons_of_neg
          (p := fun (e : WorktreeEntry) => e.name == name) hp]
        simp only [List.map_cons, List.mem_cons]
        rintro (hh | hh)
        · exact hp (by simp [hh])
        · exact ih hnd.2 hh

/-- The cd lookup errors with the unknown-worktree error exactly when no
tracked entry has the requested name. -/
theorem cd_unknown_iff (canon : String → Option String) (m : Metadata)
    (n : String) :
    cd_worktree canon m n = Except.error CdErr.unknownWorktree ↔
      n ∉ worktree_names m := by
  unfold cd_worktree
  cases hf : m.worktrees.find? (fun e => e.name == n) with
  | none =>
      apply iff_of_true rfl
      rw [List.find?_eq_none] at hf
      simp only [worktree_names, List.mem_map]
      rintro ⟨e, he, hn⟩
      exact hf e he (by simp [hn])
  | some e =>
      have hmem : e ∈ m.worktrees := List.mem_of_find?_eq_some hf
      have hname : e.name = n := by
        have := List.find?_some hf
        simpa using this
      apply iff_of_false
      · cases hc : canon e.path <;> simp [hc]
      · simp only [worktree_names, List.mem_map, not_not]
        exact ⟨e, hmem, hname⟩

/-- C4: after a successful `delete(name)` on a store with
pairwise-distinct names, the cd lookup on the persisted store fails with
the unknown-worktree error; in general the cd lookup fails with that
error exactly when no persisted entry has the requested name. -/
theorem delete_then_cd_unknown (canon : String → Option String)
    (metadata m2 : Metadata) (name : String)
    (hnd : (worktree_names metadata).Nodup)
    (hdel : delete_worktree true metadata name = Except.ok m2) :
    cd_worktree canon m2 name = Except.error CdErr.unknownWorktree ∧
    (∀ (m : Metadata) (n : String),
      cd_worktree canon m n = Except.error CdErr.unknownWorktree ↔
        n ∉ worktree_names m) := by
  refine ⟨?_, fun m n => cd_unknown_iff canon m n⟩
  rw [cd_unknown_iff]
  unfold delete_worktree at hdel
  cases hfi : metadata.worktrees.findIdx? (fun e => e.name == name) with
  | none => rw [hfi] at hdel; simp at hdel
  | some i =>
      rw [hfi] at hdel
      simp only [if_true, Except.ok.injEq] at hdel
      rw [← hdel]
      have he := eraseIdx_of_findIdx (fun e => e.name == name)
        metadata.worktrees i hfi
      simp only [worktree_names, he]
      exact name_not_mem_eraseP name metadata.worktrees hnd

/-- Witness for C4: deleting the only entry, then looking it up. -/
theorem delete_then_cd_unknown_witness :
    cd_worktree (fun s => some s) ⟨[]⟩ "a" =
      Except.error CdErr.unknownWorktree := by
  have h := delete_then_cd_unknown (fun s => some s)
    ⟨[⟨"a", "/p", "/r", "sprout/a", 5⟩]⟩ ⟨[]⟩ "a" (by decide) (by rfl)
  exact h.1

/-- C5: the list rows are sorted descending by last-commit timestamp,
they are a permutation of the entry rows, and on the 100/300/unknown
example the rendered order is [300, 100, unknown-with-sentinel-0]. -/
theorem list_ordering (git_log : String → Option String)
    (metadata : Metadata) :
    (list_rows git_log metadata).Pairwise (fun a b => b.fst ≤ a.fst) ∧
    (list_rows git_log metadata).Perm
      (metadata.worktrees.map
        (fun e => (git_last_commit_ts git_log e.path, e))) ∧
    list_rows exampleGitLog exampleMetadata =
      [(300, exampleEntry2), (100, exampleEntry1), (0, exampleEntry3)] := by
  refine ⟨?_, ?_, ?_⟩
  · have hs : (List.mergeSort (metadata.worktrees.map
        (fun e => (git_last_commit_ts git_log e.path, e)))
        (fun a b => decide (b.fst ≤ a.fst))).Pairwise
        (fun a b => (decide (b.fst ≤ a.fst)) = true) := by
      apply List.sorted_mergeSort
      · intro a b c hab hbc
        simp only [decide_eq_true_eq] at hab hbc ⊢
        exact le_trans hbc hab
      · intro a b
        rcases le_total a.fst b.fst with h | h <;> simp [h]
    unfold list_rows
    exact hs.imp (fun h => by simpa using h)
  · unfold list_rows
    exact List.mergeSort_perm _ _
  · have hmap : exampleMetadata.worktrees.map
        (fun e => (git_last_commit_ts exampleGitLog e.path, e)) =
        [(100, exampleEntry1), (300, exampleEntry2), (0, exampleEntry3)] := rfl
    unfold list_rows
    rw [hmap]
    simp [List.mergeSort, List.splitInTwo, List.splitAt, List.splitAt.go,
      List.merge]

/-- Updating a child entry to the value it already holds is a no-op. -/
theorem updateChild_self (n : String) (c : Fs) :
    ∀ entries : List (String × Fs), lookupChild entries n = some c →
      updateChild entries n c = entries := by
  intro entries
  induction entries with
  | nil => intro h; simp [lookupChild] at h
  | cons a rest ih =>
      intro h
      rw [lookupChild, List.find?_cons] at h
      by_cases hm : (a.fst == n) = true
      · simp only [hm, cond_true, Option.map_some', Option.some.injEq] at h
        have : a.fst = n := by simpa using hm
        cases a with
        | mk m w =>
            simp only at this h
            rw [updateChild, if_pos hm, this, h]
      · simp only [hm, cond_false] at h
        cases a with
        | mk m w =>
            rw [updateChild, if_neg hm, ih (by rw [lookupChild]; exact h)]

/-- Writing back the node found at a path is a no-op. -/
theorem insertAtPath_self :
    ∀ (rel : List String) (wt : Fs) (v : Fs),
      lookupFs wt rel = some v → insertAtPath wt rel v = Except.ok wt := by
  intro rel
  induction rel with
  | nil =>
      intro wt v h
      rw [lookupFs] at h
      cases h
      cases wt <;> rfl
  | cons n rest ih =>
      intro wt v h
      cases wt with
      | file d => exact absurd h (by simp [lookupFs])
      | symlink t => exact absurd h (by simp [lookupFs])
      | dir entries =>
          simp only [lookupFs] at h
          cases hc : lookupChild entries n with
          | none => rw [hc] at h; exact absurd h (by simp)
          | some c =>
              rw [hc] at h
              have hrec := ih c v h
              rw [insertAtPath, hc]
              simp only [Option.getD_some, hrec,
                updateChild_self n c entries hc]

/-- C6: a seed-copy entry whose source is a symlink is skipped: the copy
operation succeeds and the work-tree is returned unchanged, so with
nothing initially at the destination path, nothing exists there
afterward either. -/
theorem symlink_seed_skipped (repo wt : Fs) (p : CopyPathEntry) (t : String)
    (habs : p.absolute = false)
    (hsrc : lookupFs repo p.components = some (Fs.symlink t)) :
    copy_config_paths repo wt [p] = Except.ok wt ∧
    (lookupFs wt p.components = none →
      ∃ wt2, copy_config_paths repo wt [p] = Except.ok wt2 ∧
        lookupFs wt2 p.components = none) := by
  have hone : copy_config_paths repo wt [p] = Except.ok wt := by
    rw [copy_config_paths, if_neg (by simp [habs]), hsrc]
    have hat : copy_at wt p.components (Fs.symlink t) = Except.ok wt := by
      rw [copy_at]
      cases hd : lookupFs wt p.components with
      | none => rw [copyRecursively]
      | some d =>
          rw [copyRecursively]
          exact insertAtPath_self p.components wt d hd
    simp only [hat]
    rfl
  exact ⟨hone, fun hdst => ⟨wt, hone, hdst⟩⟩

/-- Witness for C6: `copyPaths = ["secrets.txt"]` with a symlink source. -/
theorem symlink_seed_skipped_witness :
    copy_config_paths (Fs.dir [("secrets.txt", Fs.symlink "tgt")])
      (Fs.dir []) [⟨false, ["secrets.txt"]⟩] = Except.ok (Fs.dir []) ∧
    lookupFs (Fs.dir []) ["secrets.txt"] = none := by
  have h := symlink_seed_skipped (Fs.dir [("secrets.txt", Fs.symlink "tgt")])
    (Fs.dir []) ⟨false, ["secrets.txt"]⟩ "tgt" rfl rfl
  exact ⟨h.1, rfl⟩

/-- C7: when no tracked entry's canonicalized path matches the
repository root, `base` succeeds and returns the canonicalized root
itself; when the first match exists, `base` returns that entry's
`source_repo`. -/
theorem cd_base_match_and_fallback (canon : String → Option String)
    (repo_root : String) (metadata : Metadata) :
    ((∀ e ∈ metadata.worktrees, (( canon e.path).getD e.path) ≠ repo_root) →
      canon repo_root = some repo_root →
      cd_base canon repo_root metadata = Except.ok repo_root) ∧
    (∀ e, metadata.worktrees.find?
        (fun x => (( canon x.path).getD x.path) == repo_root) = some e →
      canon e.source_repo = some e.source_repo →
      cd_base canon repo_root metadata = Except.ok e.source_repo) := by
  constructor
  · intro hall hroot
    have hf : metadata.worktrees.find?
        (fun x => (( canon x.path).getD x.path) == repo_root) = none := by
      rw [List.find?_eq_none]
      intro x hx
      simpa using hall x hx
    unfold cd_base
    rw [hf, hroot]
  · intro e hf hcanon
    unfold cd_base
    rw [hf]
    simp only [hcanon]

/-- Witness for C7: the fallback on an empty store and the match on a
one-entry store. -/
theorem cd_base_witness :
    cd_base (fun s => some s) "/repo" ⟨[]⟩ = Except.ok "/repo" ∧
    cd_base (fun s => some s) "/p" ⟨[⟨"a", "/p", "/r", "sprout/a", 5⟩]⟩ =
      Except.ok "/r" := by
  constructor
  · exact (cd_base_match_and_fallback (fun s => some s) "/repo" ⟨[]⟩).1
      (by intro e he; exact absurd he (List.not_mem_nil e)) rfl
  · exact (cd_base_match_and_fallback (fun s => some s) "/p"
      ⟨[⟨"a", "/p", "/r", "sprout/a", 5⟩]⟩).2
      ⟨"a", "/p", "/r", "sprout/a", 5⟩ rfl rfl

/-- Witness for C10 at the default config. -/
theorem config_get_branch_default_mismatch_witness :
    config_get defaultConfig "branch_prefix" = Except.ok "" ∧
    derive_branch defaultConfig "x" = "sprout/" ++ "x" := by
  have h := config_get_branch_default_mismatch defaultConfig "x" rfl
  exact ⟨h.2.2.1, h.2.2.2.1⟩

end Sprout
